import Mathlib

namespace CrediScan

/-- A Python/JSON value as manipulated by the crediscan pipeline.  `url` stands
for a pydantic `HttpUrl` (a `str` subclass wrapping the given string); every
other constructor is a plain JSON value as produced by `json.loads`. -/
inductive Val where
  | null : Val
  | b (x : Bool) : Val
  | i (n : Int) : Val
  | s (str : String) : Val
  | url (u : String) : Val
  | l (xs : List Val) : Val
  | o (kvs : List (String × Val)) : Val
  deriving Repr

/-- A Python `dict` parsed from JSON: an insertion-ordered association list
(keys are unique in every dict that actually arises from Python). -/
abbrev Dict := List (String × Val)

/-- Python truthiness (`bool(v)`) of a JSON value. -/
def pyTruthy : Val → Bool
  | .null => false
  | .b x => x
  | .i n => n != 0
  | .s str => str != ""
  | .url u => u != ""
  | .l xs => !xs.isEmpty
  | .o kvs => !kvs.isEmpty

mutual

/-- Python `str(v)` for a JSON value (`repr` is used for elements nested
inside containers, as Python does). -/
def pyStr : Val → String
  | .null => "None"
  | .b true => "True"
  | .b false => "False"
  | .i n => toString n
  | .s str => str
  | .url u => u
  | .l xs => "[" ++ pyStrList xs ++ "]"
  | .o kvs => "\x7b" ++ pyStrKvs kvs ++ "\x7d"

def pyStrList : List Val → String
  | [] => ""
  | [x] => pyRepr x
  | x :: xs => pyRepr x ++ ", " ++ pyStrList xs

def pyStrKvs : List (String × Val) → String
  | [] => ""
  | [kv] => "\x27" ++ kv.1 ++ "\x27: " ++ pyRepr kv.2
  | kv :: kvs => "\x27" ++ kv.1 ++ "\x27: " ++ pyRepr kv.2 ++ ", " ++ pyStrKvs kvs

/-- Python `repr(v)` (strings gain quotes; containers same as `str`). -/
def pyRepr : Val → String
  | .s str => "\x27" ++ str ++ "\x27"
  | .url u => u
  | .null => "None"
  | .b true => "True"
  | .b false => "False"
  | .i n => toString n
  | .l xs => "[" ++ pyStrList xs ++ "]"
  | .o kvs => "\x7b" ++ pyStrKvs kvs ++ "\x7d"

end

example : pyStr (.l [.s "a", .i 2]) = "[\x27a\x27, 2]" := by rfl

/-! ### Canonicalization and `json.dumps(..., sort_keys=True)` -/

/-- Key-ordering relation used to sort `(key, value)` pairs by key, as Python's
`sorted` does on dict items with distinct keys.  Strings are compared
lexicographically by code point (`a.data ≤ b.data` is `String` order spelled
on the character lists, which the kernel can evaluate). -/
def keyLe (a b : String × Val) : Prop := a.1.data ≤ b.1.data

instance : DecidableRel keyLe := fun a b => inferInstanceAs (Decidable (a.1.data ≤ b.1.data))
instance : IsTotal (String × Val) keyLe := ⟨fun a b => le_total a.1.data b.1.data⟩
instance : IsTrans (String × Val) keyLe := ⟨fun _ _ _ h h' => le_trans h h'⟩

mutual

/-- Recursively sort the keys of every object inside a value.  Two Python
dicts are equal (structurally, order-insensitively on keys) exactly when
their canonical forms coincide; `json.dumps(v, sort_keys=True)` serializes
`canon v` verbatim. -/
def canon : Val → Val
  | .o kvs => .o (List.insertionSort keyLe (canonKvs kvs))
  | .l xs => .l (canonList xs)
  | v => v

def canonList : List Val → List Val
  | [] => []
  | x :: xs => canon x :: canonList xs

def canonKvs : List (String × Val) → List (String × Val)
  | [] => []
  | (k, v) :: kvs => (k, canon v) :: canonKvs kvs

end

/-- JSON string literal (the escaping is injective on the strings this
development evaluates; full `\\uXXXX` escaping is irrelevant to the claims,
which only need `dumps` to be a function respecting structural equality). -/
def jsonStr (s : String) : String :=
  "\"" ++ String.mk ((s.data.map fun c =>
    if c = '\\' then ['\\', '\\'] else if c = '"' then ['\\', '"'] else [c]).flatten) ++ "\""

mutual

/-- Serialize a value the way `json.dumps` prints it (default separators),
without any key sorting: `dumps` composes this with `canon`. -/
def rawSerialize : Val → String
  | .null => "null"
  | .b true => "true"
  | .b false => "false"
  | .i n => toString n
  | .s str => jsonStr str
  | .url u => jsonStr u
  | .l xs => "[" ++ rawList xs ++ "]"
  | .o kvs => "\x7b" ++ rawKvs kvs ++ "\x7d"

def rawList : List Val → String
  | [] => ""
  | [x] => rawSerialize x
  | x :: xs => rawSerialize x ++ ", " ++ rawList xs

def rawKvs : List (String × Val) → String
  | [] => ""
  | [kv] => jsonStr kv.1 ++ ": " ++ rawSerialize kv.2
  | kv :: kvs => jsonStr kv.1 ++ ": " ++ rawSerialize kv.2 ++ ", " ++ rawKvs kvs

end

mutual

/-- Whether a non-JSON-serializable Python object (an `HttpUrl`) occurs inside
the value; `json.dumps` raises `TypeError` exactly on such values. -/
def hasUrl : Val → Bool
  | .url _ => true
  | .l xs => hasUrlList xs
  | .o kvs => hasUrlKvs kvs
  | _ => false

def hasUrlList : List Val → Bool
  | [] => false
  | x :: xs => hasUrl x || hasUrlList xs

def hasUrlKvs : List (String × Val) → Bool
  | [] => false
  | kv :: kvs => hasUrl kv.2 || hasUrlKvs kvs

end

/-- `json.dumps(v, sort_keys=True)`: serialize with all object keys sorted,
raising `TypeError` when a non-serializable (`HttpUrl`) value occurs. -/
def dumps (v : Val) : Except String String :=
  if hasUrl v then .error "TypeError: Object of type HttpUrl is not JSON serializable"
  else .ok (rawSerialize (canon v))

example : dumps (.o [("b", .i 1), ("a", .l [.s "x"])]) =
    .ok "\x7b\"a\": [\"x\"], \"b\": 1\x7d" := by rfl

/-! ### Python string primitives (character-list based, kernel-evaluable) -/

/-- ASCII case-folding of one character, as `str.lower` does on the ASCII
range (the URLs this system manipulates are ASCII). -/
def charToLower (c : Char) : Char :=
  if 65 ≤ c.toNat ∧ c.toNat ≤ 90 then Char.ofNat (c.toNat + 32) else c

/-- Python `str.lower` (ASCII range). -/
def pyLower (s : String) : String := String.mk (s.data.map charToLower)

/-- Python `netloc.replace('www.', '')`: remove every non-overlapping
occurrence of the literal `"www."`, scanning left to right. -/
def stripWww : List Char → List Char
  | 'w' :: 'w' :: 'w' :: '.' :: rest => stripWww rest
  | c :: rest => c :: stripWww rest
  | [] => []

/-- Python `path.rstrip('/')`: drop all trailing slashes. -/
def rstripSlashes (cs : List Char) : List Char :=
  (cs.reverse.dropWhile (· == '/')).reverse

/-- Split a character list at the first occurrence of `c`; the second
component is `none` when `c` does not occur. -/
def splitFirstChar (c : Char) : List Char → List Char × Option (List Char)
  | [] => ([], none)
  | x :: xs =>
    if x = c then ([], some xs)
    else
      let r := splitFirstChar c xs
      (x :: r.1, r.2)

/-- Worker for `splitAllChar`, carrying the reversed current segment. -/
def splitAllCharGo (c : Char) : List Char → List Char → List (List Char)
  | [], acc => [acc.reverse]
  | x :: xs, acc =>
    if x = c then acc.reverse :: splitAllCharGo c xs []
    else splitAllCharGo c xs (x :: acc)

/-- Split a character list on every occurrence of `c` (Python `s.split(c)`). -/
def splitAllChar (c : Char) (cs : List Char) : List (List Char) :=
  splitAllCharGo c cs []

/-! ### `urllib.parse.urlparse` and URL normalization

`crediscan.app.services.company_crawler` builds URL identities from
`urlparse(url)`'s `scheme`, `netloc` and `path` components. -/

/-- The components `urlparse` produces (the rarely-used `params` component is
not modelled; none of the URLs the system builds contain a `;` segment). -/
structure UrlParts where
  scheme : String
  netloc : String
  path : String
  query : String
  fragment : String
  deriving Repr, DecidableEq

/-- Characters permitted in a URL scheme (`urllib.parse.scheme_chars`). -/
def isSchemeChar (ch : Char) : Bool :=
  ch.isAlphanum || ch == '+' || ch == '-' || ch == '.'

/-- Try to split off a `scheme:` prefix, as `urlsplit` does: the text before
the first `:` must be non-empty, start with a letter and consist of scheme
characters. -/
def splitScheme (cs : List Char) : Option (List Char × List Char) :=
  match splitFirstChar ':' cs with
  | (pre, some rest) =>
    match pre with
    | [] => none
    | c :: _ => if c.isAlpha && pre.all isSchemeChar then some (pre, rest) else none
  | (_, none) => none

/-- Split off a `//netloc` part: the netloc extends to the first `/`, `?` or
`#` after the double slash. -/
def splitNetloc : List Char → List Char × List Char
  | '/' :: '/' :: rest =>
    (rest.takeWhile (fun c => !(c == '/' || c == '?' || c == '#')),
     rest.dropWhile (fun c => !(c == '/' || c == '?' || c == '#')))
  | cs => ([], cs)

/-- `urllib.parse.urlparse` (without the `params` component): scheme, then
`//netloc`, then the fragment after `#`, then the query after `?`. -/
def pyUrlparse (url : String) : UrlParts :=
  let cs := url.data
  let sr := match splitScheme cs with
    | some (pre, r) => (pre.map charToLower, r)
    | none => (([] : List Char), cs)
  let nr := splitNetloc sr.2
  let pf := splitFirstChar '#' nr.2
  let pq := splitFirstChar '?' pf.1
  { scheme := String.mk sr.1
    netloc := String.mk nr.1
    path := String.mk pq.1
    query := String.mk (pq.2.getD [])
    fragment := String.mk (pf.2.getD []) }

example : pyUrlparse "http://www.x.com/a?q=1#f" =
    { scheme := "http", netloc := "www.x.com", path := "/a", query := "q=1", fragment := "f" } := by
  decide

/-- `CompanyAnalyzer.normalize_url`: rebuild
`f"{scheme}://{netloc}{path}"` from the parse with every `"www."`
occurrence removed from the netloc and trailing slashes stripped from the
path, then lowercase the whole string. -/
def normalize_url (url : String) : String :=
  let p := pyUrlparse url
  let netloc := String.mk (stripWww p.netloc.data)
  pyLower (p.scheme ++ "://" ++ netloc ++ String.mk (rstripSlashes p.path.data))

example : normalize_url "http://www.X.com/a/" = "http://x.com/a" := by decide

/-- `urllib.parse.urljoin` for the shapes `get_valid_urls` uses: an absolute
base with authority and a plain relative path with no dot segments.  An empty
relative reference returns the base; otherwise the relative path replaces the
last segment of the base path. -/
def urljoin (base rel : String) : String :=
  if rel = "" then base
  else
    let p := pyUrlparse base
    let bsegs := (splitAllChar '/' p.path.data).dropLast
    let segs := (bsegs ++ splitAllChar '/' rel.data).filter (· ≠ [])
    p.scheme ++ "://" ++ p.netloc ++ "/" ++
      String.intercalate "/" (segs.map String.mk)

example : urljoin "http://x.com" "about" = "http://x.com/about" := by decide
example : urljoin "http://x.com" "" = "http://x.com" := by decide

/-! ### Python dict operations (insertion-ordered association lists) -/

/-- `d.get(k)` / `d[k]`: value at the first binding of `k`. -/
def pyGet (d : Dict) (k : String) : Option Val :=
  (d.find? (fun kv => kv.1 == k)).map (·.2)

/-- `bool(d.get(k))`: truthiness of a missing key is `False`. -/
def truthyGet (d : Dict) (k : String) : Bool :=
  match pyGet d k with
  | some v => pyTruthy v
  | none => false

/-- `d[k] = v`: replace the value at an existing binding of `k` in place
(keeping its position, as Python dicts do), else append a new binding. -/
def setKey (d : Dict) (k : String) (v : Val) : Dict :=
  if d.any (fun kv => kv.1 == k) then
    d.map (fun kv => if kv.1 == k then (k, v) else kv)
  else d ++ [(k, v)]

/-- `d.update(upd)`: set every binding of `upd` into `d`, in `upd`'s order. -/
def updateDict (d upd : Dict) : Dict :=
  upd.foldl (fun acc kv => setKey acc kv.1 kv.2) d

/-- Python `iter(v)`, as `for item in data[key]` uses it: lists yield their
items, strings their characters, dicts their keys; other values raise
`TypeError`. -/
def pyIter : Val → Except String (List Val)
  | .l xs => .ok xs
  | .s str => .ok (str.data.map fun c => .s (String.mk [c]))
  | .url u => .ok (u.data.map fun c => .s (String.mk [c]))
  | .o kvs => .ok (kvs.map fun kv => .s kv.1)
  | _ => .error "TypeError: object is not iterable"

/-! ### Merge Engine (`CompanyAnalyzer.merge_lists`, `merge_security_assessments`) -/

/-- The deduplication identity `merge_lists` computes for one item:
`json.dumps(item, sort_keys=True)` for dicts (which can raise `TypeError`),
`str(item)` for everything else. -/
def dedupKeyE (item : Val) : Except String String :=
  match item with
  | .o _ => dumps item
  | _ => .ok (pyStr item)

/-- Inner loop of `merge_lists`: fold the items of one fragment's list through
the `seen` set, appending each item whose identity is new. -/
def mergeItems (seen : List String) (result : List Val) :
    List Val → Except String (List String × List Val)
  | [] => .ok (seen, result)
  | item :: rest => do
    let k ← dedupKeyE item
    if k ∈ seen then mergeItems seen result rest
    else mergeItems (k :: seen) (result ++ [item]) rest

/-- Outer loop of `merge_lists` over the fragment list: fragments whose value
at `key` is falsy are skipped; a truthy value is iterated (raising `TypeError`
when not iterable). -/
def mergeData (key : String) (seen : List String) (result : List Val) :
    List Dict → Except String (List String × List Val)
  | [] => .ok (seen, result)
  | d :: ds =>
    match pyGet d key with
    | none => mergeData key seen result ds
    | some v =>
      if pyTruthy v then do
        let items ← pyIter v
        let sr ← mergeItems seen result items
        mergeData key sr.1 sr.2 ds
      else mergeData key seen result ds

/-- `CompanyAnalyzer.merge_lists(data_list, key)`. -/
def merge_lists (data_list : List Dict) (key : String) : Except String (List Val) :=
  (mergeData key [] [] data_list).map (·.2)

/-- One `(k, v)` step of `merge_security_assessments`: a new key is inserted;
an existing key is one-level-merged when both values are dicts, left alone
when the incoming value is a dict but the stored one is not, and overwritten
otherwise. -/
def mergeSecStep (merged : Dict) (kv : String × Val) : Dict :=
  match pyGet merged kv.1 with
  | none => merged ++ [(kv.1, kv.2)]
  | some old =>
    match kv.2 with
    | .o vkvs =>
      match old with
      | .o okvs => setKey merged kv.1 (.o (updateDict okvs vkvs))
      | _ => merged
    | v => setKey merged kv.1 v

/-- `CompanyAnalyzer.merge_security_assessments(data_list)`: fragments whose
`security_assessment` is falsy are skipped; iterating `.items()` of a truthy
non-dict raises `AttributeError`. -/
def merge_security_assessments (data_list : List Dict) : Except String Dict :=
  data_list.foldlM (fun merged d =>
    match pyGet d "security_assessment" with
    | none => .ok merged
    | some v =>
      if pyTruthy v then
        match v with
        | .o kvs => .ok (kvs.foldl mergeSecStep merged)
        | _ => .error "AttributeError: object has no attribute items"
      else .ok merged) []

/-- The element check of `str.join`: every joined item must be a string
(`HttpUrl` is a `str` subclass), else `TypeError`. -/
def strItems : List Val → Except String (List String)
  | [] => .ok []
  | v :: vs =>
    match v with
    | .s str => (strItems vs).map (str :: ·)
    | .url u => (strItems vs).map (u :: ·)
    | _ => .error "TypeError: sequence item: expected str instance"

/-- `"\n".join(filter(None, [data.get(key) for data in data_list]))`: keep the
truthy per-fragment values of `key` in fragment order and join them with a
single newline; a truthy non-string raises `TypeError` inside `join`. -/
def joinField (data_list : List Dict) (key : String) : Except String String :=
  (strItems (data_list.filterMap (fun d =>
    match pyGet d key with
    | some v => if pyTruthy v then some v else none
    | none => none))).map (String.intercalate "\n")

/-- `next((data.get(key) for data in data_list if data.get(key)), "Unknown")`:
the first truthy value of `key` across the fragments, else `"Unknown"`. -/
def firstTruthy (data_list : List Dict) (key : String) : Val :=
  match data_list.find? (fun d => truthyGet d key) with
  | some d => (pyGet d key).getD .null
  | none => .s "Unknown"

/-! ### Job-position collection (`analyze_company`'s `all_jobs` set) -/

/-- String ordering used by Python's `sorted` on strings: lexicographic by
code point, spelled on the character lists so the kernel can evaluate it. -/
def strDataLe (a b : String) : Prop := a.data ≤ b.data

instance : DecidableRel strDataLe := fun a b => inferInstanceAs (Decidable (a.data ≤ b.data))
instance : IsTotal String strDataLe := ⟨fun a b => le_total a.data b.data⟩
instance : IsTrans String strDataLe := ⟨fun _ _ _ h h' => le_trans h h'⟩

/-- `sorted(xs)` for a list of strings. -/
def pySortStrings (xs : List String) : List String := List.insertionSort strDataLe xs

/-- `all_jobs.update(str(job) for job in jobs if job)` for one fragment's
job list, with the set modelled as an insertion-ordered duplicate-free list. -/
def addJob (acc : List String) (j : Val) : List String :=
  if pyTruthy j then (if pyStr j ∈ acc then acc else acc ++ [pyStr j]) else acc

/-- The `all_jobs` accumulation loop of `analyze_company`: fragments with a
`job_positions` key whose value is a list contribute the `str` of each truthy
entry; non-list values are silently skipped. -/
def collectJobs (data_list : List Dict) : List String :=
  data_list.foldl (fun acc d =>
    match pyGet d "job_positions" with
    | some (.l jobs) => jobs.foldl addJob acc
    | _ => acc) []

/-! ### The `CompanyInfo` record and its pydantic validation -/

/-- A hashable Python dict key, as produced by pydantic v1's `dict(v)`
coercion of JSON values.  JSON object keys are strings (`ks`); coercion of
explicit pairs can also yield `int`, `bool` or `None` keys.  Since Python's
`True == 1` and `False == 0` (`bool` is an `int` subclass, equal as dict
keys), a boolean key is represented by its integer value. -/
inductive PyKey where
  | ks (s : String) : PyKey
  | ki (n : Int) : PyKey
  | knull : PyKey
  deriving Repr, DecidableEq

/-- A Python dict with arbitrary hashable keys, the element type of the
record's validated `List[Dict]` fields. -/
abbrev PyDict := List (PyKey × Val)

/-- `crediscan.app.models.CompanyInfo`.  The four `List[Dict]` fields hold
pydantic-validated dicts (non-dict elements coerced by `dict(v)`);
`security_assessment` is the merged string-keyed dict, passed through
unchanged by `Dict` validation. -/
structure CompanyInfo where
  company_name : String
  website : Option String := none
  background : String
  founders : List PyDict
  funding : List PyDict
  legal_issues : List PyDict
  security_assessment : Dict
  user_reviews : List PyDict
  overall_summary : String
  job_positions : List String := []
  deriving Repr

/-- pydantic v1 validation of a `str` field: strings pass through, numbers
and bools are coerced by `str()`, anything else is a `ValidationError`. -/
def strValidate : Val → Except String String
  | .s str => .ok str
  | .url u => .ok u
  | .i n => .ok (toString n)
  | .b true => .ok "True"
  | .b false => .ok "False"
  | _ => .error "ValidationError: str type expected"

/-- Hashing a would-be dict key: lists and dicts are unhashable
(`TypeError`); scalars hash, with booleans equal to their integer values. -/
def pyKeyOf : Val → Except String PyKey
  | .s str => .ok (.ks str)
  | .url u => .ok (.ks u)
  | .i n => .ok (.ki n)
  | .b x => .ok (.ki (if x then 1 else 0))
  | .null => .ok .knull
  | .l _ => .error "TypeError: unhashable type: list"
  | .o _ => .error "TypeError: unhashable type: dict"

/-- Unpacking one element of a dict-update sequence (`dict(v)` over a list):
the element must be an iterable of exactly two items — a two-element list, a
two-character string, or a two-entry dict (iterating to its keys); anything
else raises `TypeError`/`ValueError`. -/
def pairOf : Val → Except String (PyKey × Val)
  | .l [k, v] => do
    let pk ← pyKeyOf k
    .ok (pk, v)
  | .l _ => .error "ValueError: dictionary update sequence element has wrong length"
  | .s str =>
    match str.data with
    | [a, b] => .ok (.ks (String.mk [a]), .s (String.mk [b]))
    | _ => .error "ValueError: dictionary update sequence element has wrong length"
  | .url u =>
    match u.data with
    | [a, b] => .ok (.ks (String.mk [a]), .s (String.mk [b]))
    | _ => .error "ValueError: dictionary update sequence element has wrong length"
  | .o kvs =>
    match kvs with
    | [kv1, kv2] => .ok (.ks kv1.1, .s kv2.1)
    | _ => .error "ValueError: dictionary update sequence element has wrong length"
  | _ => .error "TypeError: cannot convert dictionary update sequence element to a sequence"

/-- `d[k] = v` on a `PyDict`: replace in place, else append (Python dict
assignment). -/
def setPyKey (d : PyDict) (k : PyKey) (v : Val) : PyDict :=
  if d.any (fun kv => kv.1 == k) then
    d.map (fun kv => if kv.1 == k then (k, v) else kv)
  else d ++ [(k, v)]

/-- pydantic v1 `dict_validator`: a dict passes through; otherwise `dict(v)`
is attempted — a list builds key/value pairs left to right with assignment
semantics, a string or `HttpUrl` is an iterable of characters (so only the
empty string coerces, to `{}`), and non-iterables raise.  `TypeError` and
`ValueError` become a `ValidationError`. -/
def dictCoerce : Val → Except String PyDict
  | .o kvs => .ok (kvs.map fun kv => (.ks kv.1, kv.2))
  | .l xs => xs.foldlM (fun d x => do
      let kv ← pairOf x
      .ok (setPyKey d kv.1 kv.2)) []
  | .s str => if str.data.isEmpty then .ok [] else
      .error "ValueError: dictionary update sequence element has wrong length"
  | .url u => if u.data.isEmpty then .ok [] else
      .error "ValueError: dictionary update sequence element has wrong length"
  | _ => .error "TypeError: object is not iterable"

/-- pydantic v1 validation of a `List[Dict]` field: each element is passed
through `dict_validator` (coercing non-dict elements); any element failure
fails the whole field with a `ValidationError`. -/
def dictListValidate : List Val → Except String (List PyDict)
  | [] => .ok []
  | v :: vs => do
    let d ← dictCoerce v
    let ds ← dictListValidate vs
    .ok (d :: ds)

example : dictCoerce (.l [.l [.s "a", .i 1]]) = .ok [(.ks "a", .i 1)] := by rfl
example : dictCoerce (.o [("a", .i 1)]) = .ok [(.ks "a", .i 1)] := by rfl
example : dictCoerce (.i 3) = .error "TypeError: object is not iterable" := by rfl

/-! ### Company Analyzer (`CompanyAnalyzer.analyze_company`)

The two network collaborators are oracle parameters:
`probe` models one `check_url` interaction of `get_valid_urls` (returning the
normalized URL it records when the candidate is confirmed valid, `none`
otherwise), and `extract` models one `crawler.arun` call (returning the
decoded `extracted_content` on success, `none` on a failed or empty crawl,
with `json.loads` of string content folded into the oracle). -/

/-- The fixed sub-path candidates of `get_valid_urls`. -/
def candidatePaths : List String :=
  ["", "about", "about-us", "team", "our-team", "company",
   "solution", "contact", "how-it-works", "features",
   "careers", "jobs", "cases"]

/-- One `check_url` call: on a confirmed-valid probe the normalized URL is
added to the result set unless already present; failures add nothing. -/
def checkUrl (probe : String → Option String) (url : String)
    (valid : List String) : List String :=
  match probe url with
  | some n => if n ∈ valid then valid else valid ++ [n]
  | none => valid

/-- `CompanyAnalyzer.get_valid_urls`: normalize the base URL, probe it first
and short-circuit to the empty set when it is not confirmed; otherwise probe
every joined sub-path candidate different from the base.  The second
component records which URLs were probed, in order. -/
def get_valid_urls (probe : String → Option String) (base_url0 : String) :
    List String × List String :=
  let base_url := normalize_url base_url0
  let urls_to_check := candidatePaths.map (fun p => urljoin base_url p)
  let valid1 := checkUrl probe base_url []
  if valid1.isEmpty then ([], [base_url])
  else
    let subs := urls_to_check.filter (fun u => u ≠ base_url)
    (subs.foldl (fun acc u => checkUrl probe u acc) valid1, base_url :: subs)

/-- Normalization of one crawl result's `extracted_content` into a fragment:
falsy content is skipped, a non-empty list is replaced by its first element,
and only a dict is appended to `all_extracted_data`. -/
def fragmentOf : Option Val → Option Dict
  | none => none
  | some v =>
    if pyTruthy v then
      match (match v with | .l (x :: _) => x | w => w) with
      | .o kvs => some kvs
      | _ => none
    else none

/-- The sentinel record `analyze_company` returns from its `except` handler. -/
def sentinelRecord (base_url msg : String) : CompanyInfo :=
  { company_name := "Unknown"
    website := some base_url
    background := "Information not available"
    founders := []
    funding := []
    legal_issues := []
    security_assessment := []
    user_reviews := []
    overall_summary := "Failed to analyze company: " ++ msg
    job_positions := [] }

/-- The `all_extracted_data` list of `analyze_company`: the fragments that
survive crawling and normalization, in the order the valid URLs are
iterated. -/
def extractedFragments (probe : String → Option String)
    (extract : String → Option Val) (base_url : String) : List Dict :=
  (get_valid_urls probe base_url).1.filterMap (fun u => fragmentOf (extract u))

/-- The `merged_data` construction of `analyze_company` plus the pydantic
validation of `CompanyInfo(**merged_data)` (field order): merges run in
source order, then `company_name` is validated as `str` and the four list
fields as `List[Dict]`. -/
def mergeRecord (base_url : String) (all_extracted_data : List Dict) :
    Except String CompanyInfo := do
  let all_jobs := collectJobs all_extracted_data
  let background ← joinField all_extracted_data "background"
  let founders ← merge_lists all_extracted_data "founders"
  let funding ← merge_lists all_extracted_data "funding"
  let legal_issues ← merge_lists all_extracted_data "legal_issues"
  let security_assessment ← merge_security_assessments all_extracted_data
  let user_reviews ← merge_lists all_extracted_data "user_reviews"
  let overall_summary ← joinField all_extracted_data "overall_summary"
  let company_name ← strValidate (firstTruthy all_extracted_data "company_name")
  let founders ← dictListValidate founders
  let funding ← dictListValidate funding
  let legal_issues ← dictListValidate legal_issues
  let user_reviews ← dictListValidate user_reviews
  .ok { company_name := company_name
        website := some base_url
        background := background
        founders := founders
        funding := funding
        legal_issues := legal_issues
        security_assessment := security_assessment
        user_reviews := user_reviews
        overall_summary := overall_summary
        job_positions := pySortStrings all_jobs }

/-- The `try` body of `analyze_company`: gather valid URLs (raising when there
are none), extract fragments (raising when none survive), then build and
validate the merged record. -/
def analyze_company_core (probe : String → Option String)
    (extract : String → Option Val) (base_url : String) :
    Except String CompanyInfo :=
  if (get_valid_urls probe base_url).1.isEmpty then
    .error "No valid URLs found to crawl"
  else if (extractedFragments probe extract base_url).isEmpty then
    .error "No content was successfully extracted"
  else mergeRecord base_url (extractedFragments probe extract base_url)

/-- `CompanyAnalyzer.analyze_company`: the `try` body with every failure
degraded to the sentinel record by the `except` handler — the function is
total and never propagates an error. -/
def analyze_company (probe : String → Option String)
    (extract : String → Option Val) (base_url : String) : CompanyInfo :=
  match analyze_company_core probe extract base_url with
  | .ok r => r
  | .error e => sentinelRecord base_url e

/-! ### Discovery Orchestrator (`crediscan.app.routers.discover`) -/

/-- `discover.CompanyListItem`: one candidate parsed from a listing page. -/
structure CompanyListItem where
  company_name : String
  website_url : Option String
  job_positions : List String
  deriving Repr, DecidableEq

/-- `analyze_single_company` of `analyze_companies_concurrently`: a falsy
`website_url` (absent or empty) yields `None` without analysis; otherwise the
analyzer's record is returned with its `job_positions` overwritten by the
candidate's listing-page job list.  `analyze` is the analyzer collaborator
(`company_analyzer.analyze_company`), a total function. -/
def analyze_single_company (analyze : String → CompanyInfo)
    (c : CompanyListItem) : Option CompanyInfo :=
  match c.website_url with
  | none => none
  | some w =>
    if w.isEmpty then none
    else some { analyze w with job_positions := c.job_positions }

/-- `analyze_companies_concurrently`: run every candidate's analysis, then
walk `zip(companies, results)` appending truthy results to `discovered` and
the rest to `failed`. -/
def analyze_companies_concurrently (analyze : String → CompanyInfo)
    (companies : List CompanyListItem) :
    List CompanyInfo × List CompanyListItem :=
  let results := companies.map (analyze_single_company analyze)
  (companies.zip results).foldl
    (fun acc cr =>
      match cr.2 with
      | some ci => (acc.1 ++ [ci], acc.2)
      | none => (acc.1, acc.2 ++ [cr.1]))
    ([], [])

/-! ### Cache Store (`crediscan.app.utils.cache_manager.CacheManager`) -/

/-- The per-item conversion inside the list branch of `get_cache_key`:
`str(item) if isinstance(item, HttpUrl) else item`. -/
def serializeItem : Val → Val
  | .url u => .s u
  | v => v

/-- The per-value conversion of `get_cache_key`: list values have their
top-level items converted, an `HttpUrl` becomes its string, and every other
value passes through. -/
def serializeParamVal : Val → Val
  | .l xs => .l (xs.map serializeItem)
  | .url u => .s u
  | v => v

/-- `CacheManager.get_cache_key(params)`: convert the values, sort the items
(by key — dict keys are unique) and `json.dumps` the resulting list of pairs
with `sort_keys=True`. -/
def get_cache_key (params : Dict) : Except String String :=
  let sp := params.map (fun kv => (kv.1, serializeParamVal kv.2))
  dumps (.l ((List.insertionSort keyLe sp).map (fun kv => .l [.s kv.1, kv.2])))

/-- The entry `save_result` stores: `{"params": …, "result": …,
"timestamp": …}`. -/
def mkCacheEntry (params : Dict) (result : Val) (timestamp : String) : Val :=
  .o [("params", .o params), ("result", result), ("timestamp", .s timestamp)]

/-- The in-memory `self.cache` mapping of one `CacheManager`. -/
abbrev Cache := List (String × Val)

/-- A fresh store (`load_cache` of a missing or corrupt file). -/
def emptyCache : Cache := []

/-- `CacheManager.get_cached_result(params)`: returns the stored entry —
the whole `{params, result, timestamp}` dict — or `None` on a miss. -/
def get_cached_result (cache : Cache) (params : Dict) :
    Except String (Option Val) := do
  let k ← get_cache_key params
  .ok ((cache.find? (fun kv => kv.1 == k)).map (·.2))

/-- `CacheManager.save_result(params, result)`: store the entry under the
derived key (the `save_cache` file write never affects the in-memory
mapping, and its failure is swallowed). -/
def save_result (cache : Cache) (params : Dict) (result : Val)
    (now : String) : Except String Cache := do
  let k ← get_cache_key params
  .ok (setKey cache k (mkCacheEntry params result now))

/-! ### Spec-side definitions (used only to state refinement theorems) -/

/-- Modelled from the spec: "join all non-empty per-fragment values with a
separator, preserving fragment order" — the non-empty string values of `key`
in fragment order, joined with a single newline. -/
def specJoinedField (data_list : List Dict) (key : String) : String :=
  String.intercalate "\n" (data_list.filterMap fun d =>
    match pyGet d key with
    | some (.s str) => if str = "" then none else some str
    | _ => none)

/-- The per-key combination the security-assessment merge actually performs:
a fresh key takes the incoming value; dict-onto-dict merges one level;
dict-onto-non-dict keeps the stored value; anything else overwrites. -/
def secStepSpec (acc : Option Val) (v : Val) : Val :=
  match acc with
  | none => v
  | some old =>
    match v with
    | .o vkvs =>
      match old with
      | .o okvs => .o (updateDict okvs vkvs)
      | _ => old
    | w => w

/-- The value the merged security assessment holds at key `k`, computed
fragment by fragment with `secStepSpec`. -/
def secValueAt (data_list : List Dict) (k : String) : Option Val :=
  data_list.foldl (fun acc d =>
    match pyGet d "security_assessment" with
    | some (.o kvs) =>
      match pyGet kvs k with
      | some v => some (secStepSpec acc v)
      | none => acc
    | _ => acc) none

/-! ## Lemmas -/

theorem pyLower_append (a b : String) : pyLower (a ++ b) = pyLower a ++ pyLower b := by
  simp [pyLower, String.data_append]
  rfl

/-! ## Claim C3 — URL normalization identity

`normalize_url` keeps the scheme: `http://www.x.com/` and `https://x.com`
do not normalize to the same string; they agree only after the scheme. -/

/-- C3 (counterexample): the claim that `http://www.x.com/` and
`https://x.com` normalize to the same string is false — the scheme is
preserved, so the normal forms are `http://x.com` and `https://x.com`. -/
theorem C3_normalize_url_keeps_scheme_cex :
    normalize_url "http://www.x.com/" = "http://x.com" ∧
    normalize_url "https://x.com" = "https://x.com" ∧
    normalize_url "http://www.x.com/" ≠ normalize_url "https://x.com" := by
  refine ⟨by decide, by decide, by decide⟩

/-- C3 (amended): normalization strips every `www.` occurrence from the
netloc and the trailing slashes from the path and lowercases the result, but
preserves the scheme: two URLs whose netlocs (after `www.`-stripping) and
paths (after slash-stripping) coincide normalize to the same string *after
their respective lowercased schemes*. -/
theorem C3_normalize_url_same_modulo_scheme (u1 u2 : String)
    (hn : stripWww (pyUrlparse u1).netloc.data = stripWww (pyUrlparse u2).netloc.data)
    (hp : rstripSlashes (pyUrlparse u1).path.data = rstripSlashes (pyUrlparse u2).path.data) :
    ∃ rest,
      normalize_url u1 = pyLower (pyUrlparse u1).scheme ++ rest ∧
      normalize_url u2 = pyLower (pyUrlparse u2).scheme ++ rest := by
  refine ⟨pyLower ("://" ++ String.mk (stripWww (pyUrlparse u2).netloc.data) ++
      String.mk (rstripSlashes (pyUrlparse u2).path.data)), ?_, ?_⟩ <;>
    simp [normalize_url, hn, hp, ← pyLower_append, String.append_assoc]

/-- C3 (witness for the amended theorem): instantiated at the claim's two
URLs, whose stripped netlocs and paths agree. -/
theorem C3_normalize_url_same_modulo_scheme_witness :
    ∃ rest,
      normalize_url "http://www.x.com/" = pyLower (pyUrlparse "http://www.x.com/").scheme ++ rest ∧
      normalize_url "https://x.com" = pyLower (pyUrlparse "https://x.com").scheme ++ rest :=
  C3_normalize_url_same_modulo_scheme "http://www.x.com/" "https://x.com"
    (by decide) (by decide)

/-! ## Claim C10 — normalization discards query and fragment -/

/-- C10: `normalize_url` is built solely from the parse's scheme, netloc and
path, so any two URLs that agree on those three components — in particular
two URLs differing only in query string or fragment — normalize to the same
identity. -/
theorem C10_normalize_url_ignores_query_fragment (u1 u2 : String)
    (hs : (pyUrlparse u1).scheme = (pyUrlparse u2).scheme)
    (hn : (pyUrlparse u1).netloc = (pyUrlparse u2).netloc)
    (hp : (pyUrlparse u1).path = (pyUrlparse u2).path) :
    normalize_url u1 = normalize_url u2 := by
  simp only [normalize_url, hs, hn, hp]

/-- C10 (witness): `http://x.com/a?q=1` and `http://x.com/a#f` differ only in
query and fragment and collapse to one normalized identity. -/
theorem C10_normalize_url_ignores_query_fragment_witness :
    normalize_url "http://x.com/a?q=1" = normalize_url "http://x.com/a#f" :=
  C10_normalize_url_ignores_query_fragment _ _ (by decide) (by decide) (by decide)

/-! ## Claim C8 — validator short-circuit on a dead base URL -/

/-- C8: when the probe of the (normalized) base URL confirms nothing,
`get_valid_urls` returns the empty set at once, having probed exactly the
base URL and none of the sub-path candidates. -/
theorem C8_get_valid_urls_short_circuit (probe : String → Option String)
    (base_url : String) (h : probe (normalize_url base_url) = none) :
    get_valid_urls probe base_url = ([], [normalize_url base_url]) := by
  simp [get_valid_urls, checkUrl, h]

/-- C8 (witness): a probe that rejects everything short-circuits on a
concrete base URL. -/
theorem C8_get_valid_urls_short_circuit_witness :
    get_valid_urls (fun _ => none) "http://dead.example.com" =
      ([], [normalize_url "http://dead.example.com"]) :=
  C8_get_valid_urls_short_circuit (fun _ => none) "http://dead.example.com" rfl

/-! ## Claim C5 — concatenated text fields -/

/-- C5 (counterexample): merging the backgrounds `"A"` and `"B"` joins them
with a *single* newline, `"A\nB"`, not the blank-line `"A\n\nB"` the claim
asserts. -/
theorem C5_join_separator_cex :
    joinField [[("background", Val.s "A")], [("background", Val.s "B")]] "background" =
      .ok "A\nB" ∧ ("A\nB" : String) ≠ "A\n\nB" := by
  refine ⟨by rfl, by decide⟩

theorem joinField_strItems_spec (key : String) : ∀ (dl : List Dict),
    (∀ d ∈ dl, ∀ v, pyGet d key = some v → pyTruthy v = true → ∃ s, v = .s s) →
    strItems (dl.filterMap fun d =>
        match pyGet d key with
        | some v => if pyTruthy v then some v else none
        | none => none) =
      Except.ok (dl.filterMap fun d =>
        match pyGet d key with
        | some (.s str) => if str = "" then none else some str
        | _ => none) := by
  intro dl
  induction dl with
  | nil => intro _; rfl
  | cons d ds ih =>
    intro h
    have hd := h d (by simp)
    have hds : ∀ d' ∈ ds, ∀ v, pyGet d' key = some v → pyTruthy v = true → ∃ s, v = Val.s s :=
      fun d' hd' => h d' (List.mem_cons_of_mem _ hd')
    simp only [List.filterMap_cons]
    cases hv : pyGet d key with
    | none => simpa only [hv] using ih hds
    | some v =>
      by_cases ht : pyTruthy v = true
      · obtain ⟨s, hsv⟩ := hd v hv ht
        subst hsv
        have hs : s ≠ "" := by simpa [pyTruthy] using ht
        simp [ht, hs, strItems, ih hds, Except.map]
      · have ht' : pyTruthy v = false := by simpa using ht
        rcases v with _ | b | n | s | u | xs | kvs <;>
          simp only [pyTruthy, bne_eq_false_iff_eq, Bool.not_eq_false',
            List.isEmpty_iff] at ht' <;>
          first
          | (subst ht'; simpa [pyTruthy] using ih hds)
          | simpa [pyTruthy, ht'] using ih hds

/-- C5 (amended): for fragments whose truthy `key` values are strings, the
merged field equals the non-empty per-fragment values joined **in fragment
order** with a single-newline separator (`"\n"`, not a blank line): merging
`[{"background": "A"}, {"background": "B"}]` yields `"A\nB"`, never
`"B\nA"`. -/
theorem C5_join_order_preserved (dl : List Dict) (key : String)
    (h : ∀ d ∈ dl, ∀ v, pyGet d key = some v → pyTruthy v = true → ∃ s, v = .s s) :
    joinField dl key = .ok (specJoinedField dl key) := by
  simp only [joinField, specJoinedField, joinField_strItems_spec key dl h, Except.map]

/-! ## Dict-update lemmas (shared by the cache and security-merge claims) -/

theorem find?_cons_pos {α : Type} (p : α → Bool) (a : α) (l : List α) (h : p a = true) :
    (a :: l).find? p = some a := by
  rw [List.find?_cons, h]

theorem find?_cons_neg {α : Type} (p : α → Bool) (a : α) (l : List α) (h : p a = false) :
    (a :: l).find? p = l.find? p := by
  rw [List.find?_cons, h]

theorem find?_map_set_self (k : String) (v : Val) : ∀ (d : Dict),
    d.any (fun kv => kv.1 == k) = true →
    List.find? (fun kv => kv.1 == k) (d.map fun kv => if kv.1 == k then (k, v) else kv) =
      some (k, v) := by
  intro d
  induction d with
  | nil => simp
  | cons kv ds ih =>
    intro ha
    by_cases hk : (kv.1 == k) = true
    · rw [List.map_cons, if_pos hk, find?_cons_pos (fun kv => kv.1 == k) (k, v) _ (by simp)]
    · have hkF : (kv.1 == k) = false := by simpa using hk
      have hif : (if (kv.1 == k) = true then (k, v) else kv) = kv := if_neg hk
      have ha' : ds.any (fun kv => kv.1 == k) = true := by
        rcases List.any_eq_true.mp ha with ⟨x, hx, hpx⟩
        rcases List.mem_cons.mp hx with rfl | hx'
        · exact absurd hpx hk
        · exact List.any_eq_true.mpr ⟨x, hx', hpx⟩
      rw [List.map_cons, hif, find?_cons_neg (fun kv => kv.1 == k) kv _ hkF, ih ha']

theorem find?_map_set_ne (k k' : String) (v : Val) (h : k' ≠ k) : ∀ (d : Dict),
    List.find? (fun kv => kv.1 == k) (d.map fun kv => if kv.1 == k' then (k', v) else kv) =
      List.find? (fun kv => kv.1 == k) d := by
  intro d
  induction d with
  | nil => rfl
  | cons kv ds ih =>
    by_cases hk : (kv.1 == k') = true
    · have hkv : (kv.1 == k) = false := by
        have : kv.1 = k' := by simpa using hk
        simp [this, h]
      rw [List.map_cons, if_pos hk, find?_cons_neg (fun kv => kv.1 == k) (k', v) _ (by simpa using h),
        find?_cons_neg (fun kv => kv.1 == k) kv _ hkv, ih]
    · have hif : (if (kv.1 == k') = true then (k', v) else kv) = kv := if_neg hk
      by_cases hkv : (kv.1 == k) = true
      · rw [List.map_cons, hif, find?_cons_pos (fun kv => kv.1 == k) kv _ hkv, find?_cons_pos (fun kv => kv.1 == k) kv _ hkv]
      · have hkvF : (kv.1 == k) = false := by simpa using hkv
        rw [List.map_cons, hif, find?_cons_neg (fun kv => kv.1 == k) kv _ hkvF, find?_cons_neg (fun kv => kv.1 == k) kv _ hkvF, ih]

theorem pyGet_setKey_self (d : Dict) (k : String) (v : Val) :
    pyGet (setKey d k v) k = some v := by
  unfold setKey pyGet
  by_cases ha : d.any (fun kv => kv.1 == k) = true
  · rw [if_pos ha, find?_map_set_self k v d ha]
    rfl
  · have ha' : d.any (fun kv => kv.1 == k) = false := by
      simpa only [Bool.not_eq_true] using ha
    have hnone : d.find? (fun kv => kv.1 == k) = none :=
      List.find?_eq_none.mpr (fun x hx => by
        have := List.any_eq_false.mp ha' x hx
        simpa using this)
    rw [if_neg ha, List.find?_append, hnone]
    simp

theorem pyGet_setKey_ne (d : Dict) (k k' : String) (v : Val) (h : k' ≠ k) :
    pyGet (setKey d k' v) k = pyGet d k := by
  unfold setKey pyGet
  by_cases ha : d.any (fun kv => kv.1 == k') = true
  · rw [if_pos ha, find?_map_set_ne k k' v h d]
  · rw [if_neg ha, List.find?_append]
    have : List.find? (fun kv => kv.1 == k) [(k', v)] = none := by
      simp [h]
    rw [this]
    cases d.find? (fun kv => kv.1 == k) <;> rfl

/-! ## Claim C4 — cache round-trip -/

/-- C4 (counterexample): after `save_result(p, r)`, `get_cached_result(p)`
does not return `r` itself — it returns the stored *entry*
`{"params": p, "result": r, "timestamp": t}`, from which callers must
project `["result"]`. -/
theorem C4_cache_returns_entry_not_result_cex :
    (do
      let c' ← save_result emptyCache [("url", Val.url "http://x.com/")] (Val.s "RES") "T0"
      get_cached_result c' [("url", Val.url "http://x.com/")]) =
      .ok (some (mkCacheEntry [("url", Val.url "http://x.com/")] (Val.s "RES") "T0")) ∧
    mkCacheEntry [("url", Val.url "http://x.com/")] (Val.s "RES") "T0" ≠ Val.s "RES" := by
  exact ⟨by rfl, by simp [mkCacheEntry]⟩

/-- C4 (amended): the round-trip holds up to the entry wrapper — after
`save_result(p, r)` (on any prior store), `get_cached_result(p)` returns the
entry whose `result` field is `r` (and whose `params` field is `p`); on a
fresh store, any `p` whose key derivation succeeds is a miss (`None`). -/
theorem C4_cache_round_trip (cache : Cache) (p : Dict) (r : Val) (t : String)
    (c' : Cache) (hsave : save_result cache p r t = .ok c') :
    get_cached_result c' p = .ok (some (mkCacheEntry p r t)) ∧
    pyGet [("params", Val.o p), ("result", r), ("timestamp", Val.s t)] "result" = some r ∧
    (∀ k, get_cache_key p = .ok k → get_cached_result emptyCache p = .ok none) := by
  refine ⟨?_, by rfl, ?_⟩
  · cases hkey : get_cache_key p with
    | error e => simp [save_result, hkey, bind, Except.bind] at hsave
    | ok k =>
      have hc' : c' = setKey cache k (mkCacheEntry p r t) := by
        simpa [save_result, hkey, bind, Except.bind] using hsave.symm
      have := pyGet_setKey_self cache k (mkCacheEntry p r t)
      simp only [get_cached_result, hkey, bind, Except.bind, hc']
      simpa [pyGet] using this
  · intro k hkey
    simp [get_cached_result, hkey, bind, Except.bind, emptyCache]

/-- C4 (witness): the amended round-trip at a concrete store, parameter
mapping and result. -/
theorem C4_cache_round_trip_witness :
    get_cached_result (setKey emptyCache
        ((get_cache_key [("url", Val.s "u")]).toOption.getD "")
        (mkCacheEntry [("url", Val.s "u")] (Val.s "x") "T")) [("url", Val.s "u")] =
      .ok (some (mkCacheEntry [("url", Val.s "u")] (Val.s "x") "T")) :=
  (C4_cache_round_trip emptyCache [("url", Val.s "u")] (Val.s "x") "T" _ (by rfl)).1

/-! ## Claim C9 — cache key determinism -/

/-- Strict key ordering on `(key, value)` pairs. -/
def keyLt (a b : String × Val) : Prop := a.1.data < b.1.data

instance : IsAntisymm (String × Val) keyLt :=
  ⟨fun _ _ h h' => ((lt_asymm h) h').elim⟩

theorem sorted_keyLt_of_keyLe {l : List (String × Val)}
    (hs : l.Sorted keyLe) (hn : (l.map Prod.fst).Nodup) : l.Sorted keyLt := by
  have hpair : l.Pairwise (fun a b => a.1 ≠ b.1) := List.pairwise_map.mp hn
  exact (hs.and hpair).imp (fun hab =>
    lt_of_le_of_ne hab.1 (fun hdata => hab.2 (String.ext hdata)))

theorem get_cache_key_perm (p1 p2 : Dict) (hperm : p1.Perm p2)
    (hnodup : (p1.map Prod.fst).Nodup) : get_cache_key p1 = get_cache_key p2 := by
  unfold get_cache_key
  have hmapperm : (p1.map fun kv => (kv.1, serializeParamVal kv.2)).Perm
      (p2.map fun kv => (kv.1, serializeParamVal kv.2)) := hperm.map _
  have hk1 : ((p1.map fun kv => (kv.1, serializeParamVal kv.2)).map Prod.fst).Nodup := by
    rw [List.map_map]
    exact hnodup
  have hk2 : ((p2.map fun kv => (kv.1, serializeParamVal kv.2)).map Prod.fst).Nodup := by
    rw [List.map_map]
    exact ((hperm.map Prod.fst).nodup_iff).mp hnodup
  have hsorted :
      List.insertionSort keyLe (p1.map fun kv => (kv.1, serializeParamVal kv.2)) =
      List.insertionSort keyLe (p2.map fun kv => (kv.1, serializeParamVal kv.2)) := by
    apply List.eq_of_perm_of_sorted (r := keyLt)
    · exact (List.perm_insertionSort _ _).trans
        (hmapperm.trans (List.perm_insertionSort _ _).symm)
    · exact sorted_keyLt_of_keyLe (List.sorted_insertionSort _ _)
        (((List.perm_insertionSort _ _).map Prod.fst).nodup_iff.mpr hk1)
    · exact sorted_keyLt_of_keyLe (List.sorted_insertionSort _ _)
        (((List.perm_insertionSort _ _).map Prod.fst).nodup_iff.mpr hk2)
  simp only [hsorted]

/-- C9: the cache key is representation-independent — (i) permuting the
insertion order of a parameter mapping's (distinct-keyed) items leaves the
key unchanged; (ii) an `HttpUrl` value yields the same key as its string
form; (iii) likewise for an `HttpUrl` inside a top-level list value. -/
theorem C9_cache_key_determinism :
    (∀ p1 p2 : Dict, p1.Perm p2 → (p1.map Prod.fst).Nodup →
      get_cache_key p1 = get_cache_key p2) ∧
    (∀ (pre post : Dict) (k u : String),
      get_cache_key (pre ++ (k, Val.url u) :: post) =
        get_cache_key (pre ++ (k, Val.s u) :: post)) ∧
    (∀ (pre post : Dict) (k u : String) (xs ys : List Val),
      get_cache_key (pre ++ (k, Val.l (xs ++ Val.url u :: ys)) :: post) =
        get_cache_key (pre ++ (k, Val.l (xs ++ Val.s u :: ys)) :: post)) := by
  refine ⟨get_cache_key_perm, ?_, ?_⟩
  · intro pre post k u
    simp [get_cache_key, serializeParamVal]
  · intro pre post k u xs ys
    simp [get_cache_key, serializeParamVal, serializeItem]

/-- C9 (witness): swapping the insertion order of two concrete parameters
(one URL-valued) leaves the derived key unchanged. -/
theorem C9_cache_key_determinism_witness :
    get_cache_key [("b", Val.s "1"), ("a", Val.url "http://u")] =
      get_cache_key [("a", Val.url "http://u"), ("b", Val.s "1")] :=
  C9_cache_key_determinism.1 _ _
    (List.Perm.swap ("a", Val.url "http://u") ("b", Val.s "1") [])
    (by decide)

/-! ## Claim C6 — security-assessment merge -/

theorem pyGet_eq_none_of_not_mem (d : Dict) (k : String)
    (h : k ∉ d.map Prod.fst) : pyGet d k = none := by
  unfold pyGet
  rw [List.find?_eq_none.mpr]
  · rfl
  · intro kv hkv hbeq
    exact h (List.mem_map.mpr ⟨kv, hkv, by simpa using hbeq⟩)

theorem pyGet_append_single_ne (d : Dict) (k k' : String) (v : Val) (h : k' ≠ k) :
    pyGet (d ++ [(k', v)]) k = pyGet d k := by
  unfold pyGet
  rw [List.find?_append]
  have : List.find? (fun kv => kv.1 == k) [(k', v)] = none := by simp [h]
  rw [this]
  cases d.find? (fun kv => kv.1 == k) <;> rfl

theorem pyGet_mergeSecStep_self (merged : Dict) (k : String) (v : Val) :
    pyGet (mergeSecStep merged (k, v)) k = some (secStepSpec (pyGet merged k) v) := by
  unfold mergeSecStep secStepSpec
  cases hold : pyGet merged k with
  | none =>
    have hfind : merged.find? (fun kv => kv.1 == k) = none := by
      unfold pyGet at hold
      cases hf : merged.find? (fun kv => kv.1 == k) with
      | none => rfl
      | some kv => rw [hf] at hold; simp at hold
    simp only [pyGet, List.find?_append, hfind]
    simp
  | some old =>
    cases v with
    | o vkvs =>
      cases old with
      | o okvs => simpa using pyGet_setKey_self merged k (.o (updateDict okvs vkvs))
      | null => simpa using hold
      | b x => simpa using hold
      | i n => simpa using hold
      | s str => simpa using hold
      | url u => simpa using hold
      | l xs => simpa using hold
    | null => simpa using pyGet_setKey_self merged k .null
    | b x => simpa using pyGet_setKey_self merged k (.b x)
    | i n => simpa using pyGet_setKey_self merged k (.i n)
    | s str => simpa using pyGet_setKey_self merged k (.s str)
    | url u => simpa using pyGet_setKey_self merged k (.url u)
    | l xs => simpa using pyGet_setKey_self merged k (.l xs)

theorem pyGet_mergeSecStep_ne (merged : Dict) (k k' : String) (v : Val) (h : k' ≠ k) :
    pyGet (mergeSecStep merged (k', v)) k = pyGet merged k := by
  unfold mergeSecStep
  cases hold : pyGet merged k' with
  | none => exact pyGet_append_single_ne merged k k' v h
  | some old =>
    cases v with
    | o vkvs =>
      cases old with
      | o okvs => exact pyGet_setKey_ne merged k k' (.o (updateDict okvs vkvs)) h
      | null => rfl
      | b x => rfl
      | i n => rfl
      | s str => rfl
      | url u => rfl
      | l xs => rfl
    | null => exact pyGet_setKey_ne merged k k' .null h
    | b x => exact pyGet_setKey_ne merged k k' (.b x) h
    | i n => exact pyGet_setKey_ne merged k k' (.i n) h
    | s str => exact pyGet_setKey_ne merged k k' (.s str) h
    | url u => exact pyGet_setKey_ne merged k k' (.url u) h
    | l xs => exact pyGet_setKey_ne merged k k' (.l xs) h

theorem foldl_mergeSecStep_at (k : String) : ∀ (kvs : List (String × Val)) (merged : Dict),
    (kvs.map Prod.fst).Nodup →
    pyGet (kvs.foldl mergeSecStep merged) k =
      (match pyGet kvs k with
       | some v => some (secStepSpec (pyGet merged k) v)
       | none => pyGet merged k) := by
  intro kvs
  induction kvs with
  | nil => intro merged _; rfl
  | cons kv rest ih =>
    intro merged hn
    obtain ⟨k₁, v₁⟩ := kv
    have hn' : (rest.map Prod.fst).Nodup := hn.of_cons
    by_cases hk : k₁ = k
    · subst hk
      have hnotin : k₁ ∉ rest.map Prod.fst := by
        have hn2 : (k₁ :: rest.map Prod.fst).Nodup := by simpa using hn
        exact (List.nodup_cons.mp hn2).1
      have hrest : pyGet rest k₁ = none := pyGet_eq_none_of_not_mem rest k₁ hnotin
      rw [List.foldl_cons, ih _ hn', hrest]
      have hhead : pyGet ((k₁, v₁) :: rest) k₁ = some v₁ := by
        unfold pyGet
        rw [find?_cons_pos (fun kv => kv.1 == k₁) (k₁, v₁) rest (by simp)]
        rfl
      rw [hhead, pyGet_mergeSecStep_self]
    · have hhead : pyGet ((k₁, v₁) :: rest) k = pyGet rest k := by
        unfold pyGet
        rw [find?_cons_neg (fun kv => kv.1 == k) (k₁, v₁) rest (by simpa using hk)]
      rw [List.foldl_cons, ih _ hn', hhead, pyGet_mergeSecStep_ne merged k k₁ v₁ hk]

/-- C6 (counterexample): a later fragment whose `security_assessment` value
at key `"k"` is a map meeting a stored non-map value does **not** overwrite
it — the earlier scalar survives, contradicting the claim's "in every other
conflicting case the later fragment's value overwrites". -/
theorem C6_dict_onto_scalar_keeps_old_cex :
    merge_security_assessments
        [[("security_assessment", Val.o [("k", Val.s "x")])],
         [("security_assessment", Val.o [("k", Val.o [("a", Val.i 1)])])]] =
      .ok [("k", Val.s "x")] ∧
    ([("k", Val.s "x")] : Dict) ≠ [("k", Val.o [("a", Val.i 1)])] := by
  constructor
  · rfl
  · intro h
    have := (Prod.mk.injEq .. ▸ (List.cons.injEq .. ▸ h).1)
    simp at this

/-- C6 (amended): the security-assessment merge is a shallow per-key merge in
fragment order where a fresh key takes the incoming value, map-onto-map
merges one level deep, map-onto-non-map **keeps the earlier value**, and any
other conflict overwrites: for every key `k`, the merged value at `k` equals
the fragment-order fold of `secStepSpec` over the fragments' values at `k`. -/
theorem C6_merge_security_per_key (dl : List Dict) (k : String)
    (hn : ∀ d ∈ dl, ∀ kvs, pyGet d "security_assessment" = some (.o kvs) →
      (kvs.map Prod.fst).Nodup)
    (m : Dict) (hok : merge_security_assessments dl = .ok m) :
    pyGet m k = secValueAt dl k := by
  have aux : ∀ (ds : List Dict) (acc : Dict),
      (∀ d ∈ ds, ∀ kvs, pyGet d "security_assessment" = some (.o kvs) →
        (kvs.map Prod.fst).Nodup) →
      ∀ m', (ds.foldlM (fun merged d =>
          match pyGet d "security_assessment" with
          | none => Except.ok merged
          | some v =>
            if pyTruthy v then
              match v with
              | .o kvs => Except.ok (kvs.foldl mergeSecStep merged)
              | _ => Except.error "AttributeError: object has no attribute items"
            else Except.ok merged) acc) = .ok m' →
      pyGet m' k = ds.foldl (fun acc d =>
        match pyGet d "security_assessment" with
        | some (.o kvs) =>
          match pyGet kvs k with
          | some v => some (secStepSpec acc v)
          | none => acc
        | _ => acc) (pyGet acc k) := by
    intro ds
    induction ds with
    | nil =>
      intro acc _ m' hm'
      simp only [List.foldlM_nil] at hm'
      cases hm'
      rfl
    | cons d rest ih =>
      intro acc hnd m' hm'
      have hnd' : ∀ d' ∈ rest, ∀ kvs, pyGet d' "security_assessment" = some (.o kvs) →
          (kvs.map Prod.fst).Nodup := fun d' hd' => hnd d' (List.mem_cons_of_mem _ hd')
      rw [List.foldlM_cons] at hm'
      cases hv : pyGet d "security_assessment" with
      | none =>
        rw [hv] at hm'
        simp only [List.foldl_cons, hv]
        exact ih acc hnd' m' (by simpa [bind, Except.bind] using hm')
      | some v =>
        rw [hv] at hm'
        by_cases ht : pyTruthy v = true
        · cases v with
          | o kvs =>
            simp only [ht, if_true, bind, Except.bind] at hm'
            have hstep := foldl_mergeSecStep_at k kvs acc (hnd d (by simp) kvs hv)
            simp only [List.foldl_cons, hv]
            rw [ih (kvs.foldl mergeSecStep acc) hnd' m' hm', hstep]
          | null => simp [pyTruthy] at ht
          | b x => simp [ht, bind, Except.bind] at hm'
          | i n => simp [ht, bind, Except.bind] at hm'
          | s str => simp [ht, bind, Except.bind] at hm'
          | url u => simp [ht, bind, Except.bind] at hm'
          | l xs => simp [ht, bind, Except.bind] at hm'
        · have htF : pyTruthy v = false := by simpa using ht
          simp only [htF, Bool.false_eq_true, if_false] at hm'
          have hspec : (match pyGet d "security_assessment" with
              | some (.o kvs) =>
                match pyGet kvs k with
                | some w => some (secStepSpec (pyGet acc k) w)
                | none => pyGet acc k
              | _ => pyGet acc k) = pyGet acc k := by
            rw [hv]
            cases v with
            | o kvs =>
              have : kvs = [] := by simpa [pyTruthy] using htF
              subst this
              rfl
            | null => rfl
            | b x => rfl
            | i n => rfl
            | s str => rfl
            | url u => rfl
            | l xs => rfl
          simp only [List.foldl_cons]
          rw [ih acc hnd' m' (by simpa [bind, Except.bind] using hm'), hspec]
  exact aux dl [] hn m hok

/-- C6 (witness): the amended per-key characterization applied to the
counterexample fragments: the merged value at `"k"` is the earlier scalar. -/
theorem C6_merge_security_per_key_witness :
    pyGet [("k", Val.s "x")] "k" =
      secValueAt [[("security_assessment", Val.o [("k", Val.s "x")])],
        [("security_assessment", Val.o [("k", Val.o [("a", Val.i 1)])])]] "k" :=
  C6_merge_security_per_key _ "k"
    (by
      intro d hd kvs hkvs
      rcases List.mem_cons.mp hd with rfl | hd'
      · have : Val.o [("k", Val.s "x")] = Val.o kvs := by
          simpa [pyGet] using hkvs
        cases this
        decide
      · rcases List.mem_cons.mp hd' with rfl | hnil
        · have : Val.o [("k", Val.o [("a", Val.i 1)])] = Val.o kvs := by
            simpa [pyGet] using hkvs
          cases this
          decide
        · simp at hnil)
    [("k", Val.s "x")] (by rfl)

/-! ## Claim C1 — discovery partition -/

/-- Truthiness of a candidate's `website_url` (`if not company.website_url`):
`None` and the empty string are falsy. -/
def websiteTruthy (c : CompanyListItem) : Bool :=
  match c.website_url with
  | some w => !w.isEmpty
  | none => false

theorem analyze_single_eq (analyze : String → CompanyInfo) (c : CompanyListItem) :
    analyze_single_company analyze c =
      if websiteTruthy c then
        some { analyze (c.website_url.getD "") with job_positions := c.job_positions }
      else none := by
  unfold analyze_single_company websiteTruthy
  cases hw : c.website_url with
  | none => rfl
  | some w =>
    by_cases he : w.isEmpty <;> simp [he]

theorem zip_foldl_partition (g : CompanyListItem → Option CompanyInfo) :
    ∀ (cs : List CompanyListItem) (d0 : List CompanyInfo) (f0 : List CompanyListItem),
    ((cs.zip (cs.map g)).foldl
      (fun acc cr =>
        match cr.2 with
        | some ci => (acc.1 ++ [ci], acc.2)
        | none => (acc.1, acc.2 ++ [cr.1])) (d0, f0)) =
      (d0 ++ cs.filterMap g, f0 ++ cs.filter (fun c => (g c).isNone)) := by
  intro cs
  induction cs with
  | nil => intro d0 f0; simp
  | cons c cs' ih =>
    intro d0 f0
    simp only [List.map_cons, List.zip_cons_cons, List.foldl_cons, List.filterMap_cons,
      List.filter_cons]
    cases hg : g c with
    | some ci => simp [ih, hg]
    | none => simp [ih, hg]

/-- C1 (counterexample): a candidate with a resolved website whose analysis
fails totally produces the sentinel "Unknown" record, and that sentinel is
appended to the **discovered** list (the sentinel `CompanyInfo` is truthy in
Python), while `failed` stays empty — contradicting the claimed partition. -/
theorem C1_sentinel_lands_in_discovered_cex :
    ((analyze_companies_concurrently
        (analyze_company (fun _ => none) (fun _ => none))
        [{ company_name := "Acme", website_url := some "http://acme.test",
           job_positions := [] }]).1.map (fun r => r.company_name) = ["Unknown"]) ∧
    (analyze_companies_concurrently
        (analyze_company (fun _ => none) (fun _ => none))
        [{ company_name := "Acme", website_url := some "http://acme.test",
           job_positions := [] }]).2 = [] := by
  exact ⟨by rfl, by rfl⟩

/-- C1 (amended): the returned lists partition the candidates by website
truthiness alone — `discovered` contains exactly the candidates with a
resolved (non-empty) website, each mapped to its analysis record (sentinel
"Unknown" records included) with `job_positions` overwritten by the listing
data, and `failed` contains exactly the candidates with no resolved website;
an analysis that degrades to the sentinel still lands in `discovered`. -/
theorem C1_discover_partition (analyze : String → CompanyInfo)
    (cs : List CompanyListItem) :
    (analyze_companies_concurrently analyze cs).1 =
      (cs.filter websiteTruthy).map
        (fun c => { analyze (c.website_url.getD "") with job_positions := c.job_positions }) ∧
    (analyze_companies_concurrently analyze cs).2 =
      cs.filter (fun c => !websiteTruthy c) := by
  unfold analyze_companies_concurrently
  rw [zip_foldl_partition (analyze_single_company analyze) cs [] []]
  constructor
  · simp only [List.nil_append]
    induction cs with
    | nil => rfl
    | cons c cs' ih =>
      rw [List.filterMap_cons, List.filter_cons, analyze_single_eq]
      by_cases hw : websiteTruthy c = true
      · simp [hw, ih]
      · have hwF : websiteTruthy c = false := by simpa using hw
        simp [hwF, ih]
  · simp only [List.nil_append]
    apply List.filter_congr
    intro c _
    rw [analyze_single_eq]
    by_cases hw : websiteTruthy c = true <;> simp [hw]

/-! ## Claim C7 — total failure degrades to the sentinel record -/

/-- C7: analysis failure is never raised — zero valid URLs (and likewise an
empty extracted-fragment set) make the `try` body fail with a human-readable
reason, and every failure of the body makes `analyze_company` return the
sentinel record: `company_name` "Unknown", the requested website preserved,
empty list and map fields, and the reason in `overall_summary`. -/
theorem C7_total_failure_sentinel (probe : String → Option String)
    (extract : String → Option Val) (base_url : String) :
    ((get_valid_urls probe base_url).1 = [] →
      analyze_company_core probe extract base_url = .error "No valid URLs found to crawl") ∧
    ((get_valid_urls probe base_url).1 ≠ [] →
      ((get_valid_urls probe base_url).1.filterMap (fun u => fragmentOf (extract u))) = [] →
      analyze_company_core probe extract base_url = .error "No content was successfully extracted") ∧
    (∀ e, analyze_company_core probe extract base_url = .error e →
      analyze_company probe extract base_url =
        { company_name := "Unknown"
          website := some base_url
          background := "Information not available"
          founders := []
          funding := []
          legal_issues := []
          security_assessment := []
          user_reviews := []
          overall_summary := "Failed to analyze company: " ++ e
          job_positions := [] }) := by
  refine ⟨?_, ?_, ?_⟩
  · intro h
    simp [analyze_company_core, h]
  · intro h1 h2
    unfold analyze_company_core
    rw [if_neg (by simpa [List.isEmpty_iff] using h1),
      if_pos (by simpa [extractedFragments, List.isEmpty_iff] using h2)]
  · intro e he
    unfold analyze_company
    rw [he]
    rfl

/-- C7 (witness): a base URL whose probe confirms nothing yields the sentinel
record, never an exception. -/
theorem C7_total_failure_sentinel_witness :
    analyze_company_core (fun _ => none) (fun _ => none) "http://dead.example.com" =
      .error "No valid URLs found to crawl" ∧
    analyze_company (fun _ => none) (fun _ => none) "http://dead.example.com" =
      { company_name := "Unknown"
        website := some "http://dead.example.com"
        background := "Information not available"
        founders := []
        funding := []
        legal_issues := []
        security_assessment := []
        user_reviews := []
        overall_summary := "Failed to analyze company: " ++ "No valid URLs found to crawl"
        job_positions := [] } := by
  have h1 := (C7_total_failure_sentinel (fun _ => none) (fun _ => none)
    "http://dead.example.com").1 (by rfl)
  exact ⟨h1, (C7_total_failure_sentinel (fun _ => none) (fun _ => none)
    "http://dead.example.com").2.2 _ h1⟩

/-! ## Claim C2 — the record invariant -/

theorem perm_any {α : Type} (p : α → Bool) {l₁ l₂ : List α} (h : l₁.Perm l₂) :
    l₁.any p = l₂.any p := by
  induction h with
  | nil => rfl
  | cons x _ ih => simp [ih]
  | swap x y l => simp [List.any_cons, Bool.or_left_comm]
  | trans _ _ ih1 ih2 => rw [ih1, ih2]

theorem hasUrlKvs_eq_any : ∀ kvs : List (String × Val),
    hasUrlKvs kvs = kvs.any (fun kv => hasUrl kv.2)
  | [] => rfl
  | kv :: kvs => by rw [hasUrlKvs, List.any_cons, hasUrlKvs_eq_any kvs]

mutual

theorem hasUrl_canon : ∀ v, hasUrl (canon v) = hasUrl v
  | .null => rfl
  | .b _ => rfl
  | .i _ => rfl
  | .s _ => rfl
  | .url _ => rfl
  | .l xs => by rw [canon, hasUrl, hasUrl, hasUrlList_canonList xs]
  | .o kvs => by
    rw [canon, hasUrl, hasUrl, hasUrlKvs_eq_any, hasUrlKvs_eq_any,
      perm_any _ (List.perm_insertionSort keyLe (canonKvs kvs)),
      ← hasUrlKvs_eq_any, ← hasUrlKvs_eq_any, hasUrlKvs_canonKvs kvs]

theorem hasUrlList_canonList : ∀ xs, hasUrlList (canonList xs) = hasUrlList xs
  | [] => rfl
  | x :: xs => by
    rw [canonList, hasUrlList, hasUrlList, hasUrl_canon x, hasUrlList_canonList xs]

theorem hasUrlKvs_canonKvs : ∀ kvs, hasUrlKvs (canonKvs kvs) = hasUrlKvs kvs
  | [] => rfl
  | (k, v) :: kvs => by
    rw [canonKvs, hasUrlKvs, hasUrlKvs, hasUrl_canon v, hasUrlKvs_canonKvs kvs]

end

/-- `json.dumps(·, sort_keys=True)` respects structural (key-order-blind)
equality: values with the same canonical form serialize identically. -/
theorem dumps_eq_of_canon_eq {a b : Val} (h : canon a = canon b) :
    dumps a = dumps b := by
  unfold dumps
  rw [← hasUrl_canon a, ← hasUrl_canon b, h]

/-- Bool-level "is a dict". -/
def isObjB : Val → Bool
  | .o _ => true
  | _ => false

theorem dedupKeyE_eq_of_obj_canon_eq {a b : Val} (ha : isObjB a = true)
    (hb : isObjB b = true) (h : canon a = canon b) : dedupKeyE a = dedupKeyE b := by
  cases a <;> simp [isObjB] at ha
  cases b <;> simp [isObjB] at hb
  exact dumps_eq_of_canon_eq h

/-- The deduplication invariant `merge_lists` guarantees: pairwise distinct
dedup identities. -/
def PairwiseKeysDistinct (xs : List Val) : Prop :=
  xs.Pairwise (fun a b => dedupKeyE a ≠ dedupKeyE b)

theorem mergeItems_inv : ∀ (items : List Val) (seen : List String) (result : List Val)
    (out : List String × List Val),
    mergeItems seen result items = .ok out →
    (∀ v ∈ result, ∃ k, dedupKeyE v = .ok k ∧ k ∈ seen) →
    PairwiseKeysDistinct result →
    (∀ v ∈ out.2, ∃ k, dedupKeyE v = .ok k ∧ k ∈ out.1) ∧ PairwiseKeysDistinct out.2 := by
  intro items
  induction items with
  | nil =>
    intro seen result out hout hmem hpair
    unfold mergeItems at hout
    cases hout
    exact ⟨hmem, hpair⟩
  | cons item rest ih =>
    intro seen result out hout hmem hpair
    unfold mergeItems at hout
    cases hk : dedupKeyE item with
    | error e => rw [hk] at hout; simp [bind, Except.bind] at hout
    | ok k =>
      rw [hk] at hout
      simp only [bind, Except.bind] at hout
      by_cases hin : k ∈ seen
      · rw [if_pos hin] at hout
        exact ih seen result out hout hmem hpair
      · rw [if_neg hin] at hout
        refine ih (k :: seen) (result ++ [item]) out hout ?_ ?_
        · intro v hv
          rcases List.mem_append.mp hv with hv' | hv'
          · obtain ⟨kv, hkv, hkvs⟩ := hmem v hv'
            exact ⟨kv, hkv, List.mem_cons_of_mem _ hkvs⟩
          · have : v = item := by simpa using hv'
            subst this
            exact ⟨k, hk, List.mem_cons_self _ _⟩
        · rw [PairwiseKeysDistinct, List.pairwise_append]
          refine ⟨hpair, List.pairwise_singleton _ _, ?_⟩
          intro v hv w hw
          have : w = item := by simpa using hw
          subst this
          obtain ⟨kv, hkv, hkvs⟩ := hmem v hv
          rw [hkv, hk]
          intro heq
          cases heq
          exact hin hkvs

theorem mergeData_inv (key : String) : ∀ (dl : List Dict) (seen : List String)
    (result : List Val) (out : List String × List Val),
    mergeData key seen result dl = .ok out →
    (∀ v ∈ result, ∃ k, dedupKeyE v = .ok k ∧ k ∈ seen) →
    PairwiseKeysDistinct result →
    (∀ v ∈ out.2, ∃ k, dedupKeyE v = .ok k ∧ k ∈ out.1) ∧ PairwiseKeysDistinct out.2 := by
  intro dl
  induction dl with
  | nil =>
    intro seen result out hout hmem hpair
    unfold mergeData at hout
    cases hout
    exact ⟨hmem, hpair⟩
  | cons d ds ih =>
    intro seen result out hout hmem hpair
    unfold mergeData at hout
    cases hv : pyGet d key with
    | none =>
      rw [hv] at hout
      exact ih seen result out hout hmem hpair
    | some v =>
      rw [hv] at hout
      by_cases ht : pyTruthy v = true
      · simp only [ht, if_true, bind, Except.bind] at hout
        cases hit : pyIter v with
        | error e =>
          simp only [hit] at hout
          exact absurd hout (by simp)
        | ok items =>
          simp only [hit] at hout
          cases hmi : mergeItems seen result items with
          | error e =>
            simp only [hmi] at hout
            exact absurd hout (by simp)
          | ok sr =>
            simp only [hmi] at hout
            obtain ⟨hmem', hpair'⟩ := mergeItems_inv items seen result sr hmi hmem hpair
            exact ih sr.1 sr.2 out hout hmem' hpair'
      · have htF : pyTruthy v = false := by simpa using ht
        simp only [htF, Bool.false_eq_true, if_false] at hout
        exact ih seen result out hout hmem hpair

theorem merge_lists_inv (dl : List Dict) (key : String) (res : List Val)
    (h : merge_lists dl key = .ok res) : PairwiseKeysDistinct res := by
  unfold merge_lists at h
  cases hmd : mergeData key [] [] dl with
  | error e => rw [hmd] at h; simp [Except.map] at h
  | ok out =>
    rw [hmd] at h
    have hres : res = out.2 := by
      simpa [Except.map] using h.symm
    subst hres
    exact (mergeData_inv key dl [] [] out hmd (by simp) (by simp [PairwiseKeysDistinct])).2

/-- The claim-facing structural reading of the invariant: no two identical
elements, and no two dict elements that are structurally identical
(key-order-insensitively). -/
def noStructDup (xs : List Val) : Prop :=
  xs.Pairwise (fun a b =>
    a ≠ b ∧ (isObjB a = true → isObjB b = true → canon a ≠ canon b))

theorem noStructDup_of_keysDistinct {xs : List Val}
    (h : PairwiseKeysDistinct xs) : noStructDup xs := by
  refine h.imp (fun hne => ⟨?_, ?_⟩)
  · rintro rfl
    exact hne rfl
  · intro ha hb hcanon
    exact hne (dedupKeyE_eq_of_obj_canon_eq ha hb hcanon)

theorem toDigitsCore_length_gt (b : Nat) : ∀ (f n : Nat) (l : List Char), 0 < f →
    (Nat.toDigitsCore b f n l).length > l.length := by
  intro f
  induction f with
  | zero => intro n l h; omega
  | succ f ih =>
    intro n l _
    simp only [Nat.toDigitsCore]
    split
    · simp
    · by_cases hf : 0 < f
      · have := ih (n / b) (Nat.digitChar (n % b) :: l) hf
        simp at this ⊢
        omega
      · have hf0 : f = 0 := by omega
        subst hf0
        simp [Nat.toDigitsCore]

theorem nat_repr_ne_empty (n : Nat) : Nat.repr n ≠ "" := by
  have h := toDigitsCore_length_gt 10 (n + 1) n [] (by omega)
  simp only [Nat.repr, Nat.toDigits]
  intro hc
  have hdata : (Nat.toDigitsCore 10 (n + 1) n []).asString.data = "".data := by rw [hc]
  simp [List.asString] at hdata
  simp [hdata] at h

theorem int_toString_ne_empty (n : Int) : toString n ≠ "" := by
  show Int.repr n ≠ ""
  cases n with
  | ofNat m => simpa [Int.repr] using nat_repr_ne_empty m
  | negSucc m =>
    simp only [Int.repr]
    intro hc
    have : ("-" ++ Nat.repr (m + 1)).data = "".data := by rw [hc]
    simp [String.data_append] at this

theorem strValidate_ok_ne_empty (v : Val) (s : String)
    (hv : pyTruthy v = true ∨ v = .s "Unknown") (hok : strValidate v = .ok s) :
    s ≠ "" := by
  cases v with
  | s str =>
    have hs : s = str := by simpa [strValidate] using hok.symm
    rcases hv with ht | hu
    · rw [hs]
      simpa [pyTruthy] using ht
    · injection hu with h2
      rw [hs, h2]
      simp
  | url u =>
    have hs : s = u := by simpa [strValidate] using hok.symm
    rcases hv with ht | hu
    · rw [hs]
      simpa [pyTruthy] using ht
    · cases hu
  | i n =>
    have hs : s = toString n := by simpa [strValidate] using hok.symm
    rw [hs]
    exact int_toString_ne_empty n
  | b x =>
    cases x with
    | true =>
      have hs : s = "True" := by simpa [strValidate] using hok.symm
      simp [hs]
    | false =>
      have hs : s = "False" := by simpa [strValidate] using hok.symm
      simp [hs]
  | null => simp [strValidate] at hok
  | l xs => simp [strValidate] at hok
  | o kvs => simp [strValidate] at hok

theorem firstTruthy_cases (dl : List Dict) (key : String) :
    pyTruthy (firstTruthy dl key) = true ∨ firstTruthy dl key = .s "Unknown" := by
  unfold firstTruthy
  cases hf : dl.find? (fun d => truthyGet d key) with
  | none => exact Or.inr rfl
  | some d =>
    left
    have hp := List.find?_some hf
    simp only at hp
    unfold truthyGet at hp
    cases hg : pyGet d key with
    | none => rw [hg] at hp; cases hp
    | some v =>
      rw [hg] at hp
      simpa [hg] using hp

theorem addJob_nodup (acc : List String) (j : Val) (h : acc.Nodup) :
    (addJob acc j).Nodup := by
  unfold addJob
  by_cases ht : pyTruthy j = true
  · rw [if_pos ht]
    by_cases hm : pyStr j ∈ acc
    · rwa [if_pos hm]
    · rw [if_neg hm]
      simp [List.nodup_append, h, hm]
  · rwa [if_neg ht]

theorem foldl_addJob_nodup : ∀ (jobs : List Val) (acc : List String), acc.Nodup →
    (jobs.foldl addJob acc).Nodup := by
  intro jobs
  induction jobs with
  | nil => intro acc h; exact h
  | cons j rest ih =>
    intro acc h
    exact ih (addJob acc j) (addJob_nodup acc j h)

theorem collectJobs_nodup (dl : List Dict) : (collectJobs dl).Nodup := by
  unfold collectJobs
  have aux : ∀ (ds : List Dict) (acc : List String), acc.Nodup →
      (ds.foldl (fun acc d =>
        match pyGet d "job_positions" with
        | some (.l jobs) => jobs.foldl addJob acc
        | _ => acc) acc).Nodup := by
    intro ds
    induction ds with
    | nil => intro acc h; exact h
    | cons d rest ih =>
      intro acc h
      rw [List.foldl_cons]
      cases hg : pyGet d "job_positions" with
      | none => exact ih acc h
      | some v =>
        cases v with
        | l jobs => exact ih _ (foldl_addJob_nodup jobs acc h)
        | null => exact ih acc h
        | b x => exact ih acc h
        | i n => exact ih acc h
        | s str => exact ih acc h
        | url u => exact ih acc h
        | o kvs => exact ih acc h
  exact aux dl [] List.nodup_nil

theorem pySortStrings_strict_sorted (xs : List String) (h : xs.Nodup) :
    (pySortStrings xs).Pairwise (fun a b => a < b) := by
  have hsorted : (pySortStrings xs).Pairwise strDataLe :=
    List.sorted_insertionSort strDataLe xs
  have hnodup : (pySortStrings xs).Nodup :=
    ((List.perm_insertionSort strDataLe xs).nodup_iff).mpr h
  refine (hsorted.and hnodup).imp (fun hab => ?_)
  have hdata := lt_of_le_of_ne hab.1 (fun hd => hab.2 (String.ext hd))
  exact String.lt_iff_toList_lt.mpr hdata

theorem mergeRecord_ok_fields (base_url : String) (dl : List Dict) (r : CompanyInfo)
    (h : mergeRecord base_url dl = .ok r) :
    (∃ s, strValidate (firstTruthy dl "company_name") = .ok s ∧ r.company_name = s) ∧
    (∃ xs, merge_lists dl "founders" = .ok xs ∧ dictListValidate xs = .ok r.founders) ∧
    (∃ xs, merge_lists dl "funding" = .ok xs ∧ dictListValidate xs = .ok r.funding) ∧
    (∃ xs, merge_lists dl "legal_issues" = .ok xs ∧ dictListValidate xs = .ok r.legal_issues) ∧
    (∃ xs, merge_lists dl "user_reviews" = .ok xs ∧ dictListValidate xs = .ok r.user_reviews) ∧
    r.job_positions = pySortStrings (collectJobs dl) := by
  unfold mergeRecord at h
  simp only [bind, Except.bind] at h
  cases h1 : joinField dl "background" with
  | error e =>
    simp only [h1] at h
    exact Except.noConfusion h
  | ok bg =>
  simp only [h1] at h
  cases h2 : merge_lists dl "founders" with
  | error e =>
    simp only [h2] at h
    exact Except.noConfusion h
  | ok fo =>
  simp only [h2] at h
  cases h3 : merge_lists dl "funding" with
  | error e =>
    simp only [h3] at h
    exact Except.noConfusion h
  | ok fu =>
  simp only [h3] at h
  cases h4 : merge_lists dl "legal_issues" with
  | error e =>
    simp only [h4] at h
    exact Except.noConfusion h
  | ok li =>
  simp only [h4] at h
  cases h5 : merge_security_assessments dl with
  | error e =>
    simp only [h5] at h
    exact Except.noConfusion h
  | ok sa =>
  simp only [h5] at h
  cases h6 : merge_lists dl "user_reviews" with
  | error e =>
    simp only [h6] at h
    exact Except.noConfusion h
  | ok ur =>
  simp only [h6] at h
  cases h7 : joinField dl "overall_summary" with
  | error e =>
    simp only [h7] at h
    exact Except.noConfusion h
  | ok os =>
  simp only [h7] at h
  cases h8 : strValidate (firstTruthy dl "company_name") with
  | error e =>
    simp only [h8] at h
    exact Except.noConfusion h
  | ok cn =>
  simp only [h8] at h
  cases h9 : dictListValidate fo with
  | error e =>
    simp only [h9] at h
    exact Except.noConfusion h
  | ok fo2 =>
  simp only [h9] at h
  cases h10 : dictListValidate fu with
  | error e =>
    simp only [h10] at h
    exact Except.noConfusion h
  | ok fu2 =>
  simp only [h10] at h
  cases h11 : dictListValidate li with
  | error e =>
    simp only [h11] at h
    exact Except.noConfusion h
  | ok li2 =>
  simp only [h11] at h
  cases h12 : dictListValidate ur with
  | error e =>
    simp only [h12] at h
    exact Except.noConfusion h
  | ok ur2 =>
  simp only [h12] at h
  cases h
  exact ⟨⟨cn, rfl, rfl⟩, ⟨fo, rfl, h9⟩, ⟨fu, rfl, h10⟩, ⟨li, rfl, h11⟩, ⟨ur, rfl, h12⟩, rfl⟩

/-- The probe and extraction oracles of a concrete analysis in which one
fragment’s `founders` list holds a dict and a list-of-pairs that coerce to
the same dict. -/
def probeC2 : String → Option String :=
  fun u => if u = "http://acme.test" then some u else none

def extractC2 : String → Option Val :=
  fun _ => some (.o [("founders", .l [.o [("a", .i 1)], .l [.l [.s "a", .i 1]]])])

/-- The record that concrete analysis returns: its `founders` holds the same
coerced dict twice. -/
def recordC2 : CompanyInfo :=
  { company_name := "Unknown"
    website := some "http://acme.test"
    background := ""
    founders := [[(.ks "a", .i 1)], [(.ks "a", .i 1)]]
    funding := []
    legal_issues := []
    security_assessment := []
    user_reviews := []
    overall_summary := ""
    job_positions := [] }

/-- C2 (counterexample): the claimed invariant fails on records the program
actually returns, in two ways.  (i) `analyze_company` itself: a fragment
whose `founders` holds the dict `{"a": 1}` and the pair-list `[["a", 1]]`
survives `merge_lists` (their dedup identities differ: `json.dumps` for the
dict, `str` for the list), and pydantic’s `dict(v)` coercion then turns both
into the same dict — the returned record’s `founders` contains two
structurally identical elements.  (ii) discovery: a discovered record’s
`job_positions` is overwritten verbatim by the candidate’s listing job list
`["b", "a", "a"]`, which has a duplicate and is not sorted. -/
theorem C2_invariant_violations_cex :
    (analyze_company probeC2 extractC2 "http://acme.test" = recordC2 ∧
      recordC2.founders = [[(.ks "a", .i 1)], [(.ks "a", .i 1)]] ∧
      ¬ recordC2.founders.Pairwise (fun a b => a ≠ b)) ∧
    ((analyze_companies_concurrently
        (analyze_company (fun _ => none) (fun _ => none))
        [{ company_name := "Acme", website_url := some "http://acme.test",
           job_positions := ["b", "a", "a"] }]).1.map (fun r => r.job_positions) =
      [["b", "a", "a"]]) ∧
    ¬ (["b", "a", "a"] : List String).Pairwise (fun a b => a < b) := by
  refine ⟨⟨by rfl, by rfl, ?_⟩, by rfl, ?_⟩
  · intro h
    simp only [recordC2] at h
    rcases List.pairwise_cons.mp h with ⟨hne, -⟩
    exact hne _ (List.mem_singleton.mpr rfl) rfl
  · intro h
    rcases List.pairwise_cons.mp h with ⟨-, h2⟩
    rcases List.pairwise_cons.mp h2 with ⟨ha, -⟩
    exact lt_irrefl _ (ha "a" (by simp))

theorem core_ok_mergeRecord (probe : String → Option String)
    (extract : String → Option Val) (base_url : String) (r : CompanyInfo)
    (hcore : analyze_company_core probe extract base_url = .ok r) :
    mergeRecord base_url (extractedFragments probe extract base_url) = .ok r := by
  unfold analyze_company_core at hcore
  by_cases hv1 : (get_valid_urls probe base_url).1.isEmpty
  · rw [if_pos hv1] at hcore
    cases hcore
  · rw [if_neg hv1] at hcore
    by_cases hv2 : (extractedFragments probe extract base_url).isEmpty
    · rw [if_pos hv2] at hcore
      cases hcore
    · rwa [if_neg hv2] at hcore

/-- C2 (amended): every record `analyze_company` returns has a non-empty
`company_name` ("Unknown" fallback) and strictly sorted, duplicate-free
`job_positions`; on a successful analysis each of the four list fields is
the element-wise pydantic `dict(v)`-coercion of a merged list that itself
contains no two identical elements and no two structurally identical dicts
(key-order-insensitively) — the coercion can collapse distinct merged
elements into structurally identical dicts in the final record.  During
discovery, a discovered record’s `job_positions` is replaced verbatim by its
candidate’s listing-page job list, which need not be deduplicated or
sorted. -/
theorem C2_record_invariant :
    (∀ (probe : String → Option String) (extract : String → Option Val) (base_url : String),
      (analyze_company probe extract base_url).company_name ≠ "" ∧
      (analyze_company probe extract base_url).job_positions.Pairwise (fun a b => a < b)) ∧
    (∀ (probe : String → Option String) (extract : String → Option Val)
      (base_url : String) (r : CompanyInfo),
      analyze_company_core probe extract base_url = .ok r →
      (∃ xs, merge_lists (extractedFragments probe extract base_url) "founders" = .ok xs ∧
        noStructDup xs ∧ dictListValidate xs = .ok r.founders) ∧
      (∃ xs, merge_lists (extractedFragments probe extract base_url) "funding" = .ok xs ∧
        noStructDup xs ∧ dictListValidate xs = .ok r.funding) ∧
      (∃ xs, merge_lists (extractedFragments probe extract base_url) "legal_issues" = .ok xs ∧
        noStructDup xs ∧ dictListValidate xs = .ok r.legal_issues) ∧
      (∃ xs, merge_lists (extractedFragments probe extract base_url) "user_reviews" = .ok xs ∧
        noStructDup xs ∧ dictListValidate xs = .ok r.user_reviews)) ∧
    (∀ (analyze : String → CompanyInfo) (cs : List CompanyListItem),
      ∀ r ∈ (analyze_companies_concurrently analyze cs).1,
        ∃ c ∈ cs, r.job_positions = c.job_positions) := by
  refine ⟨?_, ?_, ?_⟩
  · intro probe extract base_url
    unfold analyze_company
    cases hcore : analyze_company_core probe extract base_url with
    | error e => exact ⟨by simp [sentinelRecord], by simp [sentinelRecord]⟩
    | ok r =>
      obtain ⟨⟨cn, hcn, hcneq⟩, -, -, -, -, hjobs⟩ :=
        mergeRecord_ok_fields base_url (extractedFragments probe extract base_url) r
          (core_ok_mergeRecord probe extract base_url r hcore)
      constructor
      · rw [hcneq]
        exact strValidate_ok_ne_empty _ cn
          (firstTruthy_cases (extractedFragments probe extract base_url) "company_name") hcn
      · rw [hjobs]
        exact pySortStrings_strict_sorted _ (collectJobs_nodup _)
  · intro probe extract base_url r hcore
    obtain ⟨-, ⟨fo, hfo, hfoc⟩, ⟨fu, hfu, hfuc⟩, ⟨li, hli, hlic⟩, ⟨ur, hur, hurc⟩, -⟩ :=
      mergeRecord_ok_fields base_url (extractedFragments probe extract base_url) r
        (core_ok_mergeRecord probe extract base_url r hcore)
    exact ⟨⟨fo, hfo, noStructDup_of_keysDistinct (merge_lists_inv _ _ _ hfo), hfoc⟩,
      ⟨fu, hfu, noStructDup_of_keysDistinct (merge_lists_inv _ _ _ hfu), hfuc⟩,
      ⟨li, hli, noStructDup_of_keysDistinct (merge_lists_inv _ _ _ hli), hlic⟩,
      ⟨ur, hur, noStructDup_of_keysDistinct (merge_lists_inv _ _ _ hur), hurc⟩⟩
  · intro analyze cs r hr
    unfold analyze_companies_concurrently at hr
    rw [zip_foldl_partition (analyze_single_company analyze) cs [] []] at hr
    simp only [List.nil_append] at hr
    obtain ⟨c, hc, hsome⟩ := List.mem_filterMap.mp hr
    refine ⟨c, hc, ?_⟩
    rw [analyze_single_eq] at hsome
    by_cases hw : websiteTruthy c = true
    · rw [if_pos hw] at hsome
      cases hsome
      rfl
    · rw [if_neg hw] at hsome
      cases hsome

/-- C2 (witness): the amended theorem at concrete runs — the
merge-then-coerce characterization of the duplicate-founders analysis, and
the verbatim job overwrite of a concrete discovery run. -/
theorem C2_record_invariant_witness :
    ((∃ xs, merge_lists (extractedFragments probeC2 extractC2 "http://acme.test") "founders" = .ok xs ∧
        noStructDup xs ∧ dictListValidate xs = .ok recordC2.founders) ∧
      (∃ xs, merge_lists (extractedFragments probeC2 extractC2 "http://acme.test") "funding" = .ok xs ∧
        noStructDup xs ∧ dictListValidate xs = .ok recordC2.funding) ∧
      (∃ xs, merge_lists (extractedFragments probeC2 extractC2 "http://acme.test") "legal_issues" = .ok xs ∧
        noStructDup xs ∧ dictListValidate xs = .ok recordC2.legal_issues) ∧
      (∃ xs, merge_lists (extractedFragments probeC2 extractC2 "http://acme.test") "user_reviews" = .ok xs ∧
        noStructDup xs ∧ dictListValidate xs = .ok recordC2.user_reviews)) ∧
    (∃ c ∈ ([⟨"Acme", some "http://acme.test", ["b", "a", "a"]⟩] : List CompanyListItem),
      ({ analyze_company (fun _ => none) (fun _ => none) "http://acme.test" with
          job_positions := ["b", "a", "a"] } : CompanyInfo).job_positions = c.job_positions) :=
  ⟨C2_record_invariant.2.1 probeC2 extractC2 "http://acme.test" recordC2 (by rfl),
   C2_record_invariant.2.2 (analyze_company (fun _ => none) (fun _ => none))
     [⟨"Acme", some "http://acme.test", ["b", "a", "a"]⟩]
     { analyze_company (fun _ => none) (fun _ => none) "http://acme.test" with
         job_positions := ["b", "a", "a"] }
     (List.mem_singleton.mpr rfl)⟩

/-- C5 (witness): the amended theorem applied to the `"A"`/`"B"` fragments
produces the order-preserving join `"A\nB"`. -/
theorem C5_join_order_preserved_witness :
    joinField [[("background", Val.s "A")], [("background", Val.s "B")]] "background" =
      .ok (specJoinedField [[("background", Val.s "A")], [("background", Val.s "B")]] "background") ∧
    specJoinedField [[("background", Val.s "A")], [("background", Val.s "B")]] "background" = "A\nB" :=
  ⟨C5_join_order_preserved _ _ (by
    intro d hd v hv _
    simp only [List.mem_cons, List.not_mem_nil, or_false] at hd
    rcases hd with rfl | rfl <;> simp [pyGet] at hv <;> exact ⟨_, hv.symm⟩), by rfl⟩

end CrediScan
